import Mathlib

/-!
Verification development for `src/include/EventEmitter.h` (namespace `Rctrl`).

The header defines the class template `EventEmitter<EventType, Event>` with
  * `std::multimap<EventType, Listener> listeners` — the listener mapping,
  * `ListenerID lastListenerID = 0` where `ListenerID = unsigned int`,
  * `std::mutex listenersMutex`,
and the three operations `addListener`, `removeListener` and (protected) `emit`.

Modelling decisions, each justified by the source:
  * `EventType` (the category key) is a type `K` with a `LinearOrder` instance:
    the header requires the key to "be comparable with <" and `std::multimap`
    orders by `<` with equivalence `¬(a<b) ∧ ¬(b<a)`, which a linear order
    makes propositional equality.
  * A `std::function` value either holds a callable or is empty; we model
    `CallbackFunction` as `Option C` for an opaque callable type `C`.
    `if (!callback)` becomes a test for `none`.
  * `ListenerID` is `unsigned int`, 32 bits on the platforms this header
    targets, so counter arithmetic is `Nat` arithmetic modulo `2^32`
    (`UINT_MOD`).  `Listener::id` is declared `int`; the narrowing in
    `int listenerID = lastListenerID++;`, the comparison
    `it->second.id == id` (`int` against `unsigned int`) and the implicit
    conversion in `return listenerID;` are all value-preserving modulo `2^32`
    on twos-complement targets, so ids are represented as `Nat` values
    `< UINT_MOD` throughout.
  * `std::multimap` is modelled as a `List (K × Listener C)` kept sorted by
    key; `emplace` inserts at the upper bound of the equal range (the C++11
    guarantee), `erase` of elements during iteration is `List.filter`, and
    `equal_range` is the contiguous run delimited by `lower_bound`
    (first entry whose key is not `< k`) and `upper_bound` (first entry whose
    key is `> k`), rendered with `dropWhile`/`takeWhile`.
  * `emit` is `const`: it cannot change the registry state.  Its observable
    behaviour is the snapshot it copies out under the lock and the sequence
    of callback invocations `callback(eventType, event)` it then performs;
    we compute both as values (`emitSnapshot`, `emitCalls`).
  * A `throw` is an `Except.error`; `std::invalid_argument` carries the
    message string from the source.
-/

namespace Rctrl

/-- `UINT_MOD = 2^32`: the modulus of `unsigned int` (`ListenerID`) arithmetic. -/
def UINT_MOD : Nat := 4294967296

/-- `struct Listener { int id; CallbackFunction callback; };` —
the callback is the stored `std::function` value (`none` when empty). -/
structure Listener (C : Type) where
  id : Nat
  callback : Option C
deriving DecidableEq, Repr

/-- The state of an `EventEmitter<EventType, Event>` object: the multimap
`listeners` (as a key-sorted association list) and the counter
`lastListenerID` (an `unsigned int`, hence a `Nat` below `UINT_MOD`). -/
structure EventEmitter (K C : Type) where
  listeners : List (K × Listener C)
  lastListenerID : Nat
deriving DecidableEq, Repr

/-- `EventEmitter() {}` with the in-class initializers:
an empty multimap and `lastListenerID = 0`. -/
def emptyEmitter {K C : Type} : EventEmitter K C :=
  { listeners := [], lastListenerID := 0 }

/-- `listeners.emplace(eventType, listener)`: `std::multimap` insertion places
the new element at the upper bound of the range of equivalent keys, i.e.
before the first entry whose key is greater than `k` (C++11 guarantee),
preserving insertion order among entries with equal keys. -/
def emplaceListener {K C : Type} [LinearOrder K] (k : K) (v : Listener C) :
    List (K × Listener C) → List (K × Listener C)
  | [] => [(k, v)]
  | p :: rest => if k < p.1 then (k, v) :: p :: rest else p :: emplaceListener k v rest

/-- `listeners.equal_range(eventType)`: the run of entries between
`lower_bound` (drop the entries whose key is `< k`) and `upper_bound`
(take while the key is not `> k`). -/
def equalRange {K C : Type} [LinearOrder K] (k : K) (l : List (K × Listener C)) :
    List (K × Listener C) :=
  (l.dropWhile (fun p => decide (p.1 < k))).takeWhile (fun p => decide (¬ k < p.1))

/-- `addListener(eventType, callback)`: rejects an empty callback with
`std::invalid_argument`, otherwise executes
`int listenerID = lastListenerID++;` (unsigned increment, wraps mod `2^32`)
and `listeners.emplace(eventType, listener)`, returning `listenerID`. -/
def addListener {K C : Type} [LinearOrder K] (s : EventEmitter K C) (eventType : K)
    (callback : Option C) : Except String (Nat × EventEmitter K C) :=
  if callback.isNone then
    Except.error "EventEmitter::addListener: The callback function provided is not valid."
  else
    Except.ok (s.lastListenerID,
      { listeners := emplaceListener eventType ⟨s.lastListenerID, callback⟩ s.listeners,
        lastListenerID := (s.lastListenerID + 1) % UINT_MOD })

/-- `removeListener(id)`: iterates over the whole multimap and erases every
entry with `it->second.id == id`, keeping the others in place. -/
def removeListener {K C : Type} (s : EventEmitter K C) (id : Nat) : EventEmitter K C :=
  { s with listeners := s.listeners.filter (fun p => decide (¬ p.2.id = id)) }

/-- The snapshot `emit(eventType, event)` copies into `matchingListeners`
while holding the lock: the entries of `listeners.equal_range(eventType)`,
in multimap order (inserted at the beginning of the empty vector). -/
def emitSnapshot {K C : Type} [LinearOrder K] (s : EventEmitter K C) (eventType : K) :
    List (K × Listener C) :=
  equalRange eventType s.listeners

/-- The sequence of callback invocations `emit(eventType, event)` performs
after releasing the lock: for each snapshot entry, front to back,
`listener.second.callback(eventType, event)`.  Each element records the
invoked `std::function` value and the two arguments passed to it. -/
def emitCalls {K C E : Type} [LinearOrder K] (s : EventEmitter K C) (eventType : K)
    (event : E) : List (Option C × K × E) :=
  (emitSnapshot s eventType).map (fun p => (p.2.callback, eventType, event))

/-- One client call to the public interface of the registry. -/
inductive Op (K C E : Type) where
  | addListener (eventType : K) (callback : Option C)
  | removeListener (id : Nat)
  | emit (eventType : K) (event : E)
deriving DecidableEq, Repr

/-- The observable outcome of one call: the identifier returned by a
successful `addListener`, the `std::invalid_argument` exception, the plain
return of `removeListener`, or the snapshot of entries whose callbacks an
`emit` call invokes. -/
inductive Ret (K C : Type) where
  | listenerId (n : Nat)
  | invalidArgument
  | removed
  | snapshot (entries : List (K × Listener C))
deriving DecidableEq, Repr

/-- Execute one call against the registry state: the next state and the
observable outcome.  An `addListener` that throws leaves the state unchanged
(the source throws before touching any member). -/
def runOp {K C E : Type} [LinearOrder K] (s : EventEmitter K C) :
    Op K C E → EventEmitter K C × Ret K C
  | .addListener k cb =>
    match addListener s k cb with
    | .ok (n, s1) => (s1, .listenerId n)
    | .error _ => (s, .invalidArgument)
  | .removeListener id => (removeListener s id, .removed)
  | .emit k _ => (s, .snapshot (emitSnapshot s k))

/-- The registry state after a sequence of calls. -/
def execTrace {K C E : Type} [LinearOrder K] (s : EventEmitter K C) :
    List (Op K C E) → EventEmitter K C
  | [] => s
  | op :: ops => execTrace (runOp s op).1 ops

/-- The outcomes of a sequence of calls, in order. -/
def traceOuts {K C E : Type} [LinearOrder K] (s : EventEmitter K C) :
    List (Op K C E) → List (Ret K C)
  | [] => []
  | op :: ops => (runOp s op).2 :: traceOuts (runOp s op).1 ops

/-- The identifiers issued by the successful `addListener` calls of a trace,
in order. -/
def issuedIds {K C : Type} (outs : List (Ret K C)) : List Nat :=
  outs.filterMap (fun r =>
    match r with
    | .listenerId n => some n
    | _ => none)

/-- The number of successful `addListener` calls in a sequence of calls
(an `addListener` call succeeds exactly when its callback is non-empty;
this does not depend on the registry state). -/
def succAdds {K C E : Type} (ops : List (Op K C E)) : Nat :=
  ops.countP (fun op =>
    match op with
    | .addListener _ cb => !cb.isNone
    | _ => false)

/-- Keys appear in weakly increasing order, as `std::multimap` maintains. -/
def SortedKeys {K C : Type} [LinearOrder K] (l : List (K × Listener C)) : Prop :=
  l.Pairwise (fun a b => a.1 ≤ b.1)

end Rctrl

namespace Rctrl

/-! ### Lemmas about the multimap model -/

theorem emplaceListener_perm {K C : Type} [LinearOrder K] (k : K) (v : Listener C) :
    ∀ l : List (K × Listener C), (emplaceListener k v l).Perm ((k, v) :: l)
  | [] => List.Perm.refl _
  | p :: rest => by
    rw [emplaceListener]
    by_cases h : k < p.1
    · simp [h]
    · simp only [h, if_false]
      exact (List.Perm.cons p (emplaceListener_perm k v rest)).trans (List.Perm.swap _ _ _)

theorem mem_emplaceListener {K C : Type} [LinearOrder K] {k : K} {v : Listener C}
    {l : List (K × Listener C)} {a : K × Listener C} :
    a ∈ emplaceListener k v l ↔ a = (k, v) ∨ a ∈ l := by
  rw [(emplaceListener_perm k v l).mem_iff, List.mem_cons]

theorem length_emplaceListener {K C : Type} [LinearOrder K] (k : K) (v : Listener C)
    (l : List (K × Listener C)) : (emplaceListener k v l).length = l.length + 1 := by
  rw [(emplaceListener_perm k v l).length_eq, List.length_cons]

theorem sortedKeys_emplaceListener {K C : Type} [LinearOrder K] {k : K} {v : Listener C}
    {l : List (K × Listener C)} (h : SortedKeys l) : SortedKeys (emplaceListener k v l) := by
  induction l with
  | nil => simp [emplaceListener, SortedKeys]
  | cons p rest ih =>
    rw [SortedKeys, List.pairwise_cons] at h
    rw [emplaceListener]
    by_cases hk : k < p.1
    · simp only [hk, if_true]
      refine List.Pairwise.cons ?_ (List.Pairwise.cons h.1 h.2)
      intro b hb
      rcases List.mem_cons.mp hb with hb | hb
      · exact hb ▸ le_of_lt hk
      · exact le_trans (le_of_lt hk) (h.1 b hb)
    · simp only [hk, if_false]
      refine List.Pairwise.cons ?_ (ih h.2)
      intro b hb
      rcases mem_emplaceListener.mp hb with hb | hb
      · exact hb ▸ le_of_not_lt hk
      · exact h.1 b hb

theorem emplaceListener_append {K C : Type} [LinearOrder K] {k : K} (v : Listener C)
    {l : List (K × Listener C)} (h : ∀ p ∈ l, ¬ k < p.1) :
    emplaceListener k v l = l ++ [(k, v)] := by
  induction l with
  | nil => rfl
  | cons p rest ih =>
    rw [emplaceListener, if_neg (h p (List.mem_cons_self p rest))]
    rw [ih (fun q hq => h q (List.mem_cons_of_mem p hq)), List.cons_append]

theorem sortedKeys_filter {K C : Type} [LinearOrder K] {l : List (K × Listener C)}
    (h : SortedKeys l) (p : K × Listener C → Bool) : SortedKeys (l.filter p) :=
  h.sublist (List.filter_sublist l)

theorem equalRange_sublist {K C : Type} [LinearOrder K] (k : K) (l : List (K × Listener C)) :
    (equalRange k l).Sublist l :=
  (List.takeWhile_sublist _).trans (List.dropWhile_sublist _)

theorem takeWhile_eq_filter_of_le {K C : Type} [LinearOrder K] {k : K} :
    ∀ {l : List (K × Listener C)}, SortedKeys l → (∀ q ∈ l, k ≤ q.1) →
      l.takeWhile (fun p => decide (¬ k < p.1)) = l.filter (fun p => decide (p.1 = k))
  | [], _, _ => rfl
  | q :: rs, hs, hge => by
    rw [SortedKeys, List.pairwise_cons] at hs
    by_cases hq : k < q.1
    · have hne : ∀ r ∈ q :: rs, ¬ (decide (r.1 = k) = true) := by
        intro r hr
        rcases List.mem_cons.mp hr with hr | hr
        · simp [hr, ne_of_gt hq]
        · simp [ne_of_gt (lt_of_lt_of_le hq (hs.1 r hr))]
      rw [List.takeWhile_cons_of_neg (by simp [hq]), List.filter_eq_nil_iff.mpr hne]
    · have hqk : q.1 = k := le_antisymm (le_of_not_lt hq) (hge q (List.mem_cons_self q rs))
      rw [List.takeWhile_cons_of_pos (by simp [hq]), List.filter_cons_of_pos (by simp [hqk])]
      rw [takeWhile_eq_filter_of_le hs.2
        (fun r hr => le_trans (hge q (List.mem_cons_self q rs)) (hs.1 r hr))]

theorem equalRange_eq_filter {K C : Type} [LinearOrder K] {k : K} :
    ∀ {l : List (K × Listener C)}, SortedKeys l →
      equalRange k l = l.filter (fun p => decide (p.1 = k))
  | [], _ => rfl
  | p :: rest, hs => by
    rw [SortedKeys, List.pairwise_cons] at hs
    by_cases hlt : p.1 < k
    · rw [equalRange, List.dropWhile_cons_of_pos (by simp [hlt]),
        List.filter_cons_of_neg (by simp [ne_of_lt hlt])]
      exact equalRange_eq_filter hs.2
    · rw [equalRange, List.dropWhile_cons_of_neg (by simp [hlt])]
      exact takeWhile_eq_filter_of_le (List.pairwise_cons.mpr hs)
        (fun q hq => by
          rcases List.mem_cons.mp hq with hq | hq
          · exact hq ▸ le_of_not_lt hlt
          · exact le_trans (le_of_not_lt hlt) (hs.1 q hq))

theorem filter_emplaceListener_ne {K C : Type} [LinearOrder K] {k c : K} (v : Listener C)
    (hk : ¬ k = c) :
    ∀ l : List (K × Listener C),
      (emplaceListener k v l).filter (fun p => decide (p.1 = c))
        = l.filter (fun p => decide (p.1 = c))
  | [] => by simp [emplaceListener, hk]
  | p :: rest => by
    rw [emplaceListener]
    by_cases h : k < p.1
    · simp only [h, if_true]
      rw [List.filter_cons_of_neg (by simp [hk])]
    · simp only [h, if_false]
      by_cases hp : p.1 = c
      · rw [List.filter_cons_of_pos (by simp [hp]), List.filter_cons_of_pos (by simp [hp]),
          filter_emplaceListener_ne v hk rest]
      · rw [List.filter_cons_of_neg (by simp [hp]), List.filter_cons_of_neg (by simp [hp]),
          filter_emplaceListener_ne v hk rest]

theorem filter_emplaceListener_eq {K C : Type} [LinearOrder K] {k : K} (v : Listener C) :
    ∀ {l : List (K × Listener C)}, SortedKeys l →
      (emplaceListener k v l).filter (fun p => decide (p.1 = k))
        = l.filter (fun p => decide (p.1 = k)) ++ [(k, v)]
  | [], _ => by simp [emplaceListener]
  | p :: rest, hs => by
    rw [SortedKeys, List.pairwise_cons] at hs
    rw [emplaceListener]
    by_cases h : k < p.1
    · simp only [h, if_true]
      have hne : ∀ r ∈ p :: rest, ¬ (decide (r.1 = k) = true) := by
        intro r hr
        rcases List.mem_cons.mp hr with hr | hr
        · simp [hr, ne_of_gt h]
        · simp [ne_of_gt (lt_of_lt_of_le h (hs.1 r hr))]
      rw [List.filter_cons_of_pos (by simp), List.filter_eq_nil_iff.mpr hne]
      rfl
    · simp only [h, if_false]
      by_cases hp : p.1 = k
      · rw [List.filter_cons_of_pos (by simp [hp]), List.filter_cons_of_pos (by simp [hp]),
          filter_emplaceListener_eq v hs.2, List.cons_append]
      · rw [List.filter_cons_of_neg (by simp [hp]), List.filter_cons_of_neg (by simp [hp]),
          filter_emplaceListener_eq v hs.2]

end Rctrl

namespace Rctrl

/-! ### Lemmas about single calls and traces -/

/-- `1` for an `addListener` call that succeeds (non-empty callback), else `0`. -/
def opSucc {K C E : Type} : Op K C E → Nat
  | .addListener _ cb => if cb.isNone then 0 else 1
  | _ => 0

theorem succAdds_cons {K C E : Type} (op : Op K C E) (ops : List (Op K C E)) :
    succAdds (op :: ops) = opSucc op + succAdds ops := by
  cases op with
  | addListener k cb =>
    cases hcb : cb.isNone <;>
      simp [succAdds, opSucc, List.countP_cons, hcb, Nat.add_comm]
  | removeListener i => simp [succAdds, opSucc, List.countP_cons]
  | emit k e => simp [succAdds, opSucc, List.countP_cons]

theorem runOp_add_invalid {K C E : Type} [LinearOrder K] (s : EventEmitter K C) (k : K)
    {cb : Option C} (hcb : cb.isNone = true) :
    runOp s (Op.addListener k cb : Op K C E) = (s, Ret.invalidArgument) := by
  simp [runOp, addListener, hcb]

theorem runOp_add_valid {K C E : Type} [LinearOrder K] (s : EventEmitter K C) (k : K)
    {cb : Option C} (hcb : cb.isNone = false) :
    runOp s (Op.addListener k cb : Op K C E) =
      ({ listeners := emplaceListener k ⟨s.lastListenerID, cb⟩ s.listeners,
         lastListenerID := (s.lastListenerID + 1) % UINT_MOD },
       Ret.listenerId s.lastListenerID) := by
  simp [runOp, addListener, hcb]

theorem runOp_remove {K C E : Type} [LinearOrder K] (s : EventEmitter K C) (i : Nat) :
    runOp s (Op.removeListener i : Op K C E) = (removeListener s i, Ret.removed) := rfl

theorem runOp_emit {K C E : Type} [LinearOrder K] (s : EventEmitter K C) (k : K) (e : E) :
    runOp s (Op.emit k e) = (s, Ret.snapshot (emitSnapshot s k)) := rfl

theorem execTrace_cons {K C E : Type} [LinearOrder K] (s : EventEmitter K C) (op : Op K C E)
    (ops : List (Op K C E)) : execTrace s (op :: ops) = execTrace (runOp s op).1 ops := rfl

theorem traceOuts_cons {K C E : Type} [LinearOrder K] (s : EventEmitter K C) (op : Op K C E)
    (ops : List (Op K C E)) :
    traceOuts s (op :: ops) = (runOp s op).2 :: traceOuts (runOp s op).1 ops := rfl

theorem removeListener_listeners {K C : Type} (s : EventEmitter K C) (i : Nat) :
    (removeListener s i).listeners
      = s.listeners.filter (fun p => decide (¬ p.2.id = i)) := rfl

theorem issuedIds_cons_listenerId {K C : Type} (n : Nat) (rs : List (Ret K C)) :
    issuedIds (Ret.listenerId n :: rs) = n :: issuedIds rs := rfl

theorem issuedIds_cons_invalid {K C : Type} (rs : List (Ret K C)) :
    issuedIds (Ret.invalidArgument :: rs) = issuedIds rs := rfl

theorem issuedIds_cons_removed {K C : Type} (rs : List (Ret K C)) :
    issuedIds (Ret.removed :: rs) = issuedIds rs := rfl

theorem issuedIds_cons_snapshot {K C : Type} (es : List (K × Listener C))
    (rs : List (Ret K C)) : issuedIds (Ret.snapshot es :: rs) = issuedIds rs := rfl

theorem sortedKeys_runOp {K C E : Type} [LinearOrder K] {s : EventEmitter K C}
    (h : SortedKeys s.listeners) (op : Op K C E) : SortedKeys (runOp s op).1.listeners := by
  cases op with
  | addListener k cb =>
    cases hcb : cb.isNone with
    | true => rw [runOp_add_invalid s k hcb]; exact h
    | false => rw [runOp_add_valid s k hcb]; exact sortedKeys_emplaceListener h
  | removeListener i => exact sortedKeys_filter h _
  | emit k e => exact h

theorem sortedKeys_execTrace {K C E : Type} [LinearOrder K] :
    ∀ (ops : List (Op K C E)) (s : EventEmitter K C), SortedKeys s.listeners →
      SortedKeys (execTrace s ops).listeners
  | [], _, h => h
  | op :: ops, _, h => sortedKeys_execTrace ops _ (sortedKeys_runOp h op)

theorem uintMod_pos : 0 < UINT_MOD := by decide

theorem lastListenerID_execTrace {K C E : Type} [LinearOrder K] :
    ∀ (ops : List (Op K C E)) (s : EventEmitter K C), s.lastListenerID < UINT_MOD →
      (execTrace s ops).lastListenerID = (s.lastListenerID + succAdds ops) % UINT_MOD
  | [], s, h => by simp [execTrace, succAdds, Nat.mod_eq_of_lt h]
  | op :: ops, s, h => by
    rw [execTrace_cons, succAdds_cons]
    cases op with
    | addListener k cb =>
      cases hcb : cb.isNone with
      | true =>
        rw [runOp_add_invalid s k hcb, lastListenerID_execTrace ops s h]
        simp [opSucc, hcb]
      | false =>
        rw [runOp_add_valid s k hcb,
          lastListenerID_execTrace ops _ (Nat.mod_lt _ uintMod_pos)]
        simp only [opSucc, hcb, Bool.false_eq_true, if_false, Nat.mod_add_mod]
        rw [Nat.add_assoc, Nat.add_comm 1 (succAdds ops)]
    | removeListener i =>
      rw [runOp_remove, lastListenerID_execTrace ops _ (by simpa [removeListener] using h)]
      simp [opSucc, removeListener]
    | emit k e =>
      rw [runOp_emit, lastListenerID_execTrace ops s h]
      simp [opSucc]

theorem issuedIds_traceOuts {K C E : Type} [LinearOrder K] :
    ∀ (ops : List (Op K C E)) (s : EventEmitter K C), s.lastListenerID < UINT_MOD →
      issuedIds (traceOuts s ops)
        = (List.range (succAdds ops)).map (fun i => (s.lastListenerID + i) % UINT_MOD)
  | [], s, _ => by simp [traceOuts, issuedIds, succAdds]
  | op :: ops, s, h => by
    rw [traceOuts_cons, succAdds_cons]
    cases op with
    | addListener k cb =>
      cases hcb : cb.isNone with
      | true =>
        rw [runOp_add_invalid s k hcb, issuedIds_cons_invalid, issuedIds_traceOuts ops s h]
        simp [opSucc, hcb]
      | false =>
        rw [runOp_add_valid s k hcb, issuedIds_cons_listenerId,
          issuedIds_traceOuts ops _ (Nat.mod_lt _ uintMod_pos)]
        simp only [opSucc, hcb, Bool.false_eq_true, if_false]
        rw [Nat.add_comm 1 (succAdds ops), List.range_succ_eq_map, List.map_cons, List.map_map]
        refine congrArg₂ _ (by rw [Nat.add_zero, Nat.mod_eq_of_lt h]) ?_
        refine List.map_congr_left (fun i _ => ?_)
        simp only [Function.comp]
        rw [Nat.mod_add_mod, Nat.succ_eq_add_one,
          show s.lastListenerID + 1 + i = s.lastListenerID + (i + 1) by omega]
    | removeListener i =>
      rw [runOp_remove, issuedIds_cons_removed,
        issuedIds_traceOuts ops _ (by simpa [removeListener] using h)]
      simp [opSucc, removeListener]
    | emit k e =>
      rw [runOp_emit, issuedIds_cons_snapshot, issuedIds_traceOuts ops s h]
      simp [opSucc]

/-- Invariant carried along a trace that has performed `k` successful
`addListener` calls so far: the counter holds `k` reduced mod `2^32`, and —
as long as the counter has not wrapped (`k ≤ UINT_MOD`) — every stored id is
below `k` and the stored ids are pairwise distinct. -/
def InvAt {K C : Type} (k : Nat) (s : EventEmitter K C) : Prop :=
  s.lastListenerID = k % UINT_MOD ∧
  (k ≤ UINT_MOD →
    (∀ p ∈ s.listeners, p.2.id < k) ∧ (s.listeners.map (fun p => p.2.id)).Nodup)

theorem invAt_runOp {K C E : Type} [LinearOrder K] {k : Nat} {s : EventEmitter K C}
    (h : InvAt k s) (op : Op K C E) : InvAt (k + opSucc op) (runOp s op).1 := by
  cases op with
  | addListener kk cb =>
    cases hcb : cb.isNone with
    | true =>
      rw [runOp_add_invalid s kk hcb]
      simpa [opSucc, hcb] using h
    | false =>
      rw [runOp_add_valid s kk hcb]
      simp only [opSucc, hcb, Bool.false_eq_true, if_false]
      constructor
      · simp only [h.1, Nat.mod_add_mod]
      · intro hk1
        have hkM : k < UINT_MOD := lt_of_lt_of_le (Nat.lt_succ_self k) hk1
        have hid : s.lastListenerID = k := by rw [h.1, Nat.mod_eq_of_lt hkM]
        have hold := h.2 (le_of_lt hkM)
        constructor
        · intro p hp
          rcases mem_emplaceListener.mp hp with hp | hp
          · simp [hp, hid, Nat.lt_succ_self]
          · exact lt_trans (hold.1 p hp) (Nat.lt_succ_self k)
        · have hperm := (emplaceListener_perm kk ⟨s.lastListenerID, cb⟩ s.listeners).map
            (fun p => p.2.id)
          rw [hperm.nodup_iff, List.map_cons, List.nodup_cons]
          refine ⟨?_, hold.2⟩
          intro hmem
          rcases List.mem_map.mp hmem with ⟨p, hp, hpid⟩
          exact absurd (hpid ▸ hold.1 p hp) (by simp [hid])
  | removeListener i =>
    rw [runOp_remove]
    refine ⟨by simpa [opSucc, removeListener] using h.1, fun hk => ?_⟩
    have hold := h.2 (by simpa [opSucc] using hk)
    simp only [opSucc, Nat.add_zero]
    constructor
    · intro p hp
      exact hold.1 p (List.mem_of_mem_filter hp)
    · refine hold.2.sublist ?_
      show (List.map (fun p => p.2.id)
          (s.listeners.filter (fun p => decide (¬ p.2.id = i)))).Sublist
        (List.map (fun p => p.2.id) s.listeners)
      exact List.Sublist.map (fun p : K × Listener C => p.2.id)
        (List.filter_sublist s.listeners)
  | emit kk e =>
    rw [runOp_emit]
    simpa [opSucc] using h

theorem invAt_execTrace {K C E : Type} [LinearOrder K] :
    ∀ (ops : List (Op K C E)) (s : EventEmitter K C) (k : Nat), InvAt k s →
      InvAt (k + succAdds ops) (execTrace s ops)
  | [], s, k, h => by simpa [succAdds, execTrace] using h
  | op :: ops, s, k, h => by
    rw [execTrace_cons, succAdds_cons, ← Nat.add_assoc]
    exact invAt_execTrace ops _ _ (invAt_runOp h op)

theorem invAt_emptyEmitter {K C : Type} : InvAt 0 (emptyEmitter : EventEmitter K C) :=
  ⟨by simp [emptyEmitter], fun _ => by simp [emptyEmitter]⟩

theorem invAt_execTrace_empty {K C E : Type} [LinearOrder K] (ops : List (Op K C E)) :
    InvAt (succAdds ops) (execTrace (emptyEmitter : EventEmitter K C) ops) := by
  have h := invAt_execTrace ops emptyEmitter 0 invAt_emptyEmitter
  rwa [Nat.zero_add] at h

theorem mem_listeners_execTrace {K C E : Type} [LinearOrder K] :
    ∀ (ops : List (Op K C E)) (s : EventEmitter K C) (p : K × Listener C),
      p ∈ (execTrace s ops).listeners →
      p ∈ s.listeners ∨ p.2.id ∈ issuedIds (traceOuts s ops)
  | [], s, p, hp => Or.inl hp
  | op :: ops, s, p, hp => by
    rw [execTrace_cons] at hp
    rw [traceOuts_cons]
    rcases mem_listeners_execTrace ops _ p hp with hmem | hiss
    · cases op with
      | addListener k cb =>
        cases hcb : cb.isNone with
        | true =>
          rw [runOp_add_invalid s k hcb] at hmem
          rw [runOp_add_invalid s k hcb, issuedIds_cons_invalid]
          exact Or.inl hmem
        | false =>
          rw [runOp_add_valid s k hcb] at hmem
          rw [runOp_add_valid s k hcb, issuedIds_cons_listenerId]
          rcases mem_emplaceListener.mp hmem with hnew | hold
          · exact Or.inr (by simp [hnew])
          · exact Or.inl hold
      | removeListener i =>
        rw [runOp_remove] at hmem
        rw [runOp_remove, issuedIds_cons_removed]
        exact Or.inl (List.mem_of_mem_filter hmem)
      | emit k e =>
        rw [runOp_emit] at hmem
        rw [runOp_emit, issuedIds_cons_snapshot]
        exact Or.inl hmem
    · cases op with
      | addListener k cb =>
        cases hcb : cb.isNone with
        | true =>
          rw [runOp_add_invalid s k hcb] at hiss
          rw [runOp_add_invalid s k hcb, issuedIds_cons_invalid]
          exact Or.inr hiss
        | false =>
          rw [runOp_add_valid s k hcb] at hiss
          rw [runOp_add_valid s k hcb, issuedIds_cons_listenerId]
          exact Or.inr (List.mem_cons_of_mem _ hiss)
      | removeListener i =>
        rw [runOp_remove] at hiss
        rw [runOp_remove, issuedIds_cons_removed]
        exact Or.inr hiss
      | emit k e =>
        rw [runOp_emit] at hiss
        rw [runOp_emit, issuedIds_cons_snapshot]
        exact Or.inr hiss

/-- The outcome `r` contains no emitted snapshot entry carrying listener id
`i` (trivially true for the outcomes of the other two operations). -/
def snapshotAvoids {K C : Type} (i : Nat) : Ret K C → Prop
  | .snapshot es => ∀ p ∈ es, ¬ p.2.id = i
  | _ => True

theorem noId_execTrace {K C E : Type} [LinearOrder K] :
    ∀ (ops : List (Op K C E)) (s : EventEmitter K C) (i : Nat),
      (∀ p ∈ s.listeners, ¬ p.2.id = i) →
      (∀ r ∈ traceOuts s ops, ¬ r = Ret.listenerId i) →
      ∀ r ∈ traceOuts s ops, snapshotAvoids i r
  | [], _, _, _, _ => by simp [traceOuts]
  | op :: ops, s, i, hstate, hfresh => by
    rw [traceOuts_cons] at hfresh ⊢
    have hfresh1 : ∀ r ∈ traceOuts (runOp s op).1 ops, ¬ r = Ret.listenerId i :=
      fun r hr => hfresh r (List.mem_cons_of_mem _ hr)
    cases op with
    | addListener k cb =>
      cases hcb : cb.isNone with
      | true =>
        rw [runOp_add_invalid s k hcb] at hfresh1 ⊢
        intro r hr
        rcases List.mem_cons.mp hr with hr | hr
        · simp [hr, snapshotAvoids]
        · exact noId_execTrace ops s i hstate hfresh1 r hr
      | false =>
        rw [runOp_add_valid s k hcb] at hfresh hfresh1 ⊢
        have hne : ¬ s.lastListenerID = i := by
          intro hcontra
          exact hfresh (Ret.listenerId s.lastListenerID) (List.mem_cons_self _ _)
            (by rw [hcontra])
        have hstate1 : ∀ p ∈ emplaceListener k ⟨s.lastListenerID, cb⟩ s.listeners,
            ¬ p.2.id = i := by
          intro p hp
          rcases mem_emplaceListener.mp hp with hp | hp
          · simpa [hp] using hne
          · exact hstate p hp
        intro r hr
        rcases List.mem_cons.mp hr with hr | hr
        · simp [hr, snapshotAvoids]
        · exact noId_execTrace ops _ i hstate1 hfresh1 r hr
    | removeListener j =>
      rw [runOp_remove] at hfresh1 ⊢
      have hstate1 : ∀ p ∈ (removeListener s j).listeners, ¬ p.2.id = i :=
        fun p hp => hstate p (List.mem_of_mem_filter hp)
      intro r hr
      rcases List.mem_cons.mp hr with hr | hr
      · simp [hr, snapshotAvoids]
      · exact noId_execTrace ops _ i hstate1 hfresh1 r hr
    | emit k e =>
      rw [runOp_emit] at hfresh1 ⊢
      intro r hr
      rcases List.mem_cons.mp hr with hr | hr
      · subst hr
        intro p hp
        exact hstate p ((equalRange_sublist k s.listeners).subset hp)
      · exact noId_execTrace ops s i hstate hfresh1 r hr

/-! ### Traces consisting of repeated registrations (counter wraparound) -/

/-- `n` consecutive `addListener(0, cb)` calls with the same valid callback,
at the concrete instantiation `EventType = Event = Nat`, callbacks drawn
from `Nat`. -/
def repAdd (n : Nat) : List (Op Nat Nat Nat) :=
  List.replicate n (Op.addListener 0 (some 0))

theorem succAdds_repAdd (n : Nat) : succAdds (repAdd n) = n := by
  induction n with
  | zero => rfl
  | succ m ih =>
    rw [repAdd, List.replicate_succ, succAdds_cons, ← repAdd, ih]
    simp [opSucc, Nat.add_comm]

theorem execTrace_add_valid {K C E : Type} [LinearOrder K] (s : EventEmitter K C) (k : K)
    {cb : Option C} (hcb : cb.isNone = false) (ops : List (Op K C E)) :
    execTrace s (Op.addListener k cb :: ops)
      = execTrace
          { listeners := emplaceListener k ⟨s.lastListenerID, cb⟩ s.listeners,
            lastListenerID := (s.lastListenerID + 1) % UINT_MOD } ops := by
  rw [execTrace_cons, runOp_add_valid s k hcb]

theorem listeners_repAdd :
    ∀ (n : Nat) (s : EventEmitter Nat Nat), s.lastListenerID < UINT_MOD →
      (∀ p ∈ s.listeners, ¬ (0 : Nat) < p.1) →
      (execTrace s (repAdd n)).listeners
        = s.listeners
          ++ (List.range n).map
              (fun i => ((0 : Nat), ⟨(s.lastListenerID + i) % UINT_MOD, some 0⟩))
  | 0, s, _, _ => by simp [repAdd, execTrace]
  | n + 1, s, h, hkeys => by
    have hs1keys : ∀ p ∈ emplaceListener 0 ⟨s.lastListenerID, some 0⟩ s.listeners,
        ¬ (0 : Nat) < p.1 := by
      intro p hp
      rcases mem_emplaceListener.mp hp with hp | hp
      · simp [hp]
      · exact hkeys p hp
    have hrec := listeners_repAdd n
      { listeners := emplaceListener 0 ⟨s.lastListenerID, some 0⟩ s.listeners,
        lastListenerID := (s.lastListenerID + 1) % UINT_MOD }
      (Nat.mod_lt _ uintMod_pos) hs1keys
    rw [repAdd, List.replicate_succ, ← repAdd,
      execTrace_add_valid s 0 (show (some (0 : Nat)).isNone = false from rfl) (repAdd n),
      hrec]
    show emplaceListener 0 ⟨s.lastListenerID, some 0⟩ s.listeners
        ++ (List.range n).map
            (fun i => ((0 : Nat), ⟨((s.lastListenerID + 1) % UINT_MOD + i) % UINT_MOD, some 0⟩))
      = s.listeners
        ++ (List.range (n + 1)).map
            (fun i => ((0 : Nat), ⟨(s.lastListenerID + i) % UINT_MOD, some 0⟩))
    rw [emplaceListener_append _ hkeys, List.append_assoc, List.singleton_append]
    refine congrArg _ ?_
    rw [List.range_succ_eq_map, List.map_cons, List.map_map]
    refine congrArg₂ _ (by rw [Nat.add_zero, Nat.mod_eq_of_lt h]) ?_
    refine List.map_congr_left (fun i _ => ?_)
    simp only [Function.comp]
    rw [Nat.mod_add_mod, Nat.succ_eq_add_one,
      show s.lastListenerID + 1 + i = s.lastListenerID + (i + 1) by omega]

theorem issuedIds_repAdd (n : Nat) :
    issuedIds (traceOuts (emptyEmitter : EventEmitter Nat Nat) (repAdd n))
      = (List.range n).map (fun i => i % UINT_MOD) := by
  rw [issuedIds_traceOuts (repAdd n) emptyEmitter (by simp [emptyEmitter, UINT_MOD]),
    succAdds_repAdd]
  exact List.map_congr_left (fun i _ => by
    rw [show (emptyEmitter : EventEmitter Nat Nat).lastListenerID = 0 from rfl, Nat.zero_add])

theorem range_map_mod :
    (List.range (UINT_MOD + 1)).map (fun i => i % UINT_MOD) = List.range UINT_MOD ++ [0] := by
  rw [List.range_succ, List.map_append]
  refine congrArg₂ _ ?_ (by simp [Nat.mod_self])
  calc (List.range UINT_MOD).map (fun i => i % UINT_MOD)
      = (List.range UINT_MOD).map id :=
        List.map_congr_left (fun i hi => Nat.mod_eq_of_lt (List.mem_range.mp hi))
    _ = List.range UINT_MOD := List.map_id _

/-! ### Specification-side registration order (for the dispatch-order claim) -/

/-- Specification-level bookkeeping for a single category `c`, written from
the description in the spec rather than from the multimap code: the registry keeps,
per category, the list of its listeners in registration order (a successful
`addListener(k, cb)` allocates the next counter value and, when `k = c`,
appends the new entry at the end of the list for `c`), `removeListener` deletes the
entries whose id matches, and `emit` changes nothing. -/
def specStep {K C E : Type} [DecidableEq K] (c : K) (acc : List (Listener C) × Nat) :
    Op K C E → List (Listener C) × Nat
  | .addListener k cb =>
    if cb.isNone then acc
    else (if k = c then acc.1 ++ [⟨acc.2, cb⟩] else acc.1, (acc.2 + 1) % UINT_MOD)
  | .removeListener i => (acc.1.filter (fun v => decide (¬ v.id = i)), acc.2)
  | .emit _ _ => acc

/-- The listeners registered for category `c` after a sequence of calls on a
fresh registry, in registration order, according to the spec-side model. -/
def specRegistered {K C E : Type} [DecidableEq K] (c : K) (ops : List (Op K C E)) :
    List (Listener C) :=
  (ops.foldl (specStep c) ([], 0)).1

theorem filter_comm_removeId {K C : Type} [LinearOrder K] (l : List (K × Listener C))
    (c : K) (i : Nat) :
    (l.filter (fun p => decide (¬ p.2.id = i))).filter (fun p => decide (p.1 = c))
      = (l.filter (fun p => decide (p.1 = c))).filter (fun p => decide (¬ p.2.id = i)) := by
  rw [List.filter_filter, List.filter_filter]
  exact List.filter_congr (fun p _ => Bool.and_comm _ _)

theorem filter_execTrace_spec {K C E : Type} [LinearOrder K] :
    ∀ (ops : List (Op K C E)) (s : EventEmitter K C) (c : K), SortedKeys s.listeners →
      ((execTrace s ops).listeners.filter (fun p => decide (p.1 = c))).map (fun p => p.2)
        = (ops.foldl (specStep c)
            ((s.listeners.filter (fun p => decide (p.1 = c))).map (fun p => p.2),
             s.lastListenerID)).1
  | [], s, c, _ => by simp [execTrace, List.foldl_nil]
  | op :: ops, s, c, hs => by
    rw [execTrace_cons, List.foldl_cons]
    cases op with
    | addListener k cb =>
      cases hcb : cb.isNone with
      | true =>
        rw [runOp_add_invalid s k hcb, filter_execTrace_spec ops s c hs]
        simp [specStep, hcb]
      | false =>
        simp only [runOp_add_valid s k hcb]
        rw [filter_execTrace_spec ops
          { listeners := emplaceListener k ⟨s.lastListenerID, cb⟩ s.listeners,
            lastListenerID := (s.lastListenerID + 1) % UINT_MOD } c
          (sortedKeys_emplaceListener hs)]
        refine congrArg (fun acc => (List.foldl (specStep c) acc ops).1) ?_
        simp only [specStep, hcb, Bool.false_eq_true, if_false]
        by_cases hkc : k = c
        · subst hkc
          rw [if_pos rfl, filter_emplaceListener_eq ⟨s.lastListenerID, cb⟩ hs]
          simp [List.map_append]
        · rw [if_neg hkc, filter_emplaceListener_ne ⟨s.lastListenerID, cb⟩ hkc]
    | removeListener i =>
      rw [runOp_remove, filter_execTrace_spec ops (removeListener s i) c
        (sortedKeys_filter hs _)]
      refine congrArg (fun acc => (List.foldl (specStep c) acc ops).1) ?_
      show (((s.listeners.filter (fun p => decide (¬ p.2.id = i))).filter
          (fun p => decide (p.1 = c))).map (fun p => p.2), s.lastListenerID)
        = ((((s.listeners.filter (fun p => decide (p.1 = c))).map
            (fun p => p.2)).filter (fun v => decide (¬ v.id = i))), s.lastListenerID)
      rw [filter_comm_removeId, List.filter_map]
      rfl
    | emit k e =>
      rw [runOp_emit, filter_execTrace_spec ops s c hs]
      rfl

/-! ### Lock discipline, transcribed from the statement order of the source -/

/-- One step of an operation body, as far as the mutex (`listenersMutex`) and
the two shared members (`listeners`, `lastListenerID`) are concerned. -/
inductive Action where
  | acquire
  | release
  | readCounter
  | writeCounter
  | readMap
  | writeMap
deriving DecidableEq, Repr

/-- Statement order of `addListener` on the valid-callback path:
`int listenerID = lastListenerID++;` reads and writes the counter BEFORE
`std::lock_guard<std::mutex> lock(listenersMutex);` is constructed on the
next line; `listeners.emplace(...)` then accesses the map under the lock,
which is released when the guard leaves scope. -/
def addListenerActions : List Action :=
  [.readCounter, .writeCounter, .acquire, .readMap, .writeMap, .release]

/-- Statement order of `removeListener`: the guard is constructed first,
then the whole map is scanned and matching entries erased. -/
def removeListenerActions : List Action :=
  [.acquire, .readMap, .writeMap, .release]

/-- Statement order of `emit`: guard, copy of the equal range into the local
vector, release at the end of the block, then the callback invocations
(which touch no shared member). -/
def emitActions : List Action :=
  [.acquire, .readMap, .release]

/-- Does this action touch a shared member? -/
def sharedAccess : Action → Bool
  | .readCounter => true
  | .writeCounter => true
  | .readMap => true
  | .writeMap => true
  | _ => false

/-- Starting with `d` currently-held acquisitions of the lock, every shared
access in the action list happens while the lock is held. -/
def guardedFrom (d : Nat) : List Action → Bool
  | [] => true
  | a :: rest =>
    match a with
    | .acquire => guardedFrom (d + 1) rest
    | .release => guardedFrom (d - 1) rest
    | _ => (!sharedAccess a || decide (0 < d)) && guardedFrom d rest

/-- Every shared access in the action list happens under the lock. -/
def lockGuarded (l : List Action) : Bool := guardedFrom 0 l

end Rctrl

namespace Rctrl

instance instDecidableSortedKeys {K C : Type} [LinearOrder K] (l : List (K × Listener C)) :
    Decidable (SortedKeys l) :=
  inferInstanceAs (Decidable (l.Pairwise (fun a b : K × Listener C => a.1 ≤ b.1)))

/-- A small concrete trace (categories 0 and 1) used to instantiate theorems
with hypotheses at concrete inputs. -/
def opsA : List (Op Nat Nat Nat) :=
  [Op.addListener 0 (some 1), Op.addListener 1 (some 2), Op.addListener 0 (some 3)]

/-- A concrete registry with one listener for category 0 and one for 1. -/
def sW : EventEmitter Nat Nat :=
  execTrace emptyEmitter
    ([Op.addListener 0 (some 7), Op.addListener 1 (some 8)] : List (Op Nat Nat Nat))

/-- A concrete continuation trace: an emission, a fresh registration and
another emission. -/
def opsW : List (Op Nat Nat Nat) :=
  [Op.emit 0 5, Op.addListener 0 (some 9), Op.emit 1 6]

/-- The listener map of a fresh registry after `n` same-key additions:
entries with ids `0 % 2^32, 1 % 2^32, ..., (n-1) % 2^32` in insertion order. -/
theorem listeners_repAdd_empty (n : Nat) :
    (execTrace (emptyEmitter : EventEmitter Nat Nat) (repAdd n)).listeners
      = (List.range n).map (fun i => ((0 : Nat), ⟨i % UINT_MOD, some 0⟩)) := by
  rw [listeners_repAdd n emptyEmitter uintMod_pos (by intro p hp; simp [emptyEmitter] at hp)]
  simp [emptyEmitter]

/-- Among `0, 1, ..., m`, exactly `m - 1` numbers have a nonzero residue
mod `m` (all but `0` and `m` itself), for `0 < m`. -/
theorem countP_range_not_mod (m : Nat) (h : 0 < m) :
    List.countP (fun i => decide (¬ i % m = 0)) (List.range (m + 1)) = m - 1 := by
  rw [List.range_succ, List.countP_append]
  have hc2 : List.countP (fun i => decide (¬ i % m = 0)) [m] = 0 := by
    simp [List.countP_cons, Nat.mod_self]
  have hcongr : List.countP (fun i => decide (¬ i % m = 0)) (List.range m)
      = List.countP (fun i => decide (¬ i = 0)) (List.range m) :=
    List.countP_congr (fun x hx => by
      simp [Nat.mod_eq_of_lt (List.mem_range.mp hx)])
  have hkey : ∀ j : Nat,
      List.countP (fun i => decide (¬ i = 0)) (List.range (j + 1)) = j := by
    intro j
    rw [List.range_succ_eq_map, List.countP_cons, List.countP_map]
    have htrue : List.countP ((fun i => decide (¬ i = 0)) ∘ Nat.succ) (List.range j)
        = List.countP (fun _ => true) (List.range j) :=
      List.countP_congr (fun x _ => by simp [Function.comp])
    rw [htrue, congrFun List.countP_true (List.range j), List.length_range]
    simp
  have hM := hkey (m - 1)
  rw [show m - 1 + 1 = m from by omega] at hM
  rw [hc2, hcongr, hM]
  omega

/-! ### The claims -/

/-- C1: for every registry state (every `std::multimap` state is key-sorted)
and every category `c` and event `e`, the invocations performed by
`emit(c, e)` are exactly the entries registered for `c` at the time of the
call, each invoked exactly once and passed `(c, e)`, in map order — and no
entry registered for any other category is invoked. -/
theorem C1_emit_exactly_registered {K C E : Type} [LinearOrder K]
    (s : EventEmitter K C) (c : K) (e : E) (hs : SortedKeys s.listeners) :
    emitCalls s c e
      = (s.listeners.filter (fun p => decide (p.1 = c))).map
          (fun p => (p.2.callback, c, e)) := by
  rw [emitCalls, emitSnapshot, equalRange_eq_filter hs]

theorem C1_emit_exactly_registered_witness :
    SortedKeys (execTrace (emptyEmitter : EventEmitter Nat Nat) opsA).listeners
    ∧ emitCalls (execTrace (emptyEmitter : EventEmitter Nat Nat) opsA) 0 (9 : Nat)
        = (((execTrace (emptyEmitter : EventEmitter Nat Nat) opsA).listeners.filter
            (fun p => decide (p.1 = 0))).map (fun p => (p.2.callback, 0, 9))) :=
  ⟨by decide, C1_emit_exactly_registered _ 0 9 (by decide)⟩

/-- C2 counterexample: the identifier counter is a 32-bit unsigned integer,
so on a trace of `2^32 + 1` successful `addListener` calls the sequence of
issued identifiers contains a duplicate (the first and last call both
return 0) — issued ids are NOT all distinct within the lifetime of the
registry. -/
theorem C2_counterexample :
    ¬ (issuedIds (traceOuts (emptyEmitter : EventEmitter Nat Nat)
        (repAdd (UINT_MOD + 1)))).Nodup := by
  rw [issuedIds_repAdd, range_map_mod]
  intro hnodup
  exact (List.nodup_append.mp hnodup).2.2
    (List.mem_range.mpr uintMod_pos) (List.mem_singleton_self 0)

/-- C2 (amended): as long as the registry has performed at most `2^32`
successful additions in its lifetime, the identifiers issued by the
successful `addListener` calls are exactly `0, 1, 2, ...` in issuance order,
so the issued sequence is strictly increasing and in particular pairwise
distinct — an identifier once issued is never issued again within that
bound.  (The 32-bit counter wraps at the `2^32`-th issuance, after which
identifiers repeat.) -/
theorem C2_amended_issued_ids_distinct {K C E : Type} [LinearOrder K]
    (ops : List (Op K C E)) (h : succAdds ops ≤ UINT_MOD) :
    issuedIds (traceOuts (emptyEmitter : EventEmitter K C) ops)
        = List.range (succAdds ops)
    ∧ (issuedIds (traceOuts (emptyEmitter : EventEmitter K C) ops)).Pairwise (· < ·)
    ∧ (issuedIds (traceOuts (emptyEmitter : EventEmitter K C) ops)).Nodup := by
  have heq : issuedIds (traceOuts (emptyEmitter : EventEmitter K C) ops)
      = List.range (succAdds ops) := by
    rw [issuedIds_traceOuts ops emptyEmitter uintMod_pos]
    have hid : (List.range (succAdds ops)).map
        (fun i => ((emptyEmitter : EventEmitter K C).lastListenerID + i) % UINT_MOD)
        = (List.range (succAdds ops)).map id :=
      List.map_congr_left (fun i hi => by
        rw [show (emptyEmitter : EventEmitter K C).lastListenerID = 0 from rfl,
          Nat.zero_add]
        exact Nat.mod_eq_of_lt (lt_of_lt_of_le (List.mem_range.mp hi) h))
    rw [hid, List.map_id]
  refine ⟨heq, ?_, ?_⟩
  · rw [heq]
    exact List.pairwise_lt_range _
  · rw [heq]
    exact List.nodup_range _

theorem C2_amended_issued_ids_distinct_witness :
    succAdds opsA ≤ UINT_MOD
    ∧ (issuedIds (traceOuts (emptyEmitter : EventEmitter Nat Nat) opsA)
          = List.range (succAdds opsA)
      ∧ (issuedIds (traceOuts (emptyEmitter : EventEmitter Nat Nat) opsA)).Pairwise (· < ·)
      ∧ (issuedIds (traceOuts (emptyEmitter : EventEmitter Nat Nat) opsA)).Nodup) :=
  ⟨by decide, C2_amended_issued_ids_distinct opsA (by decide)⟩

/-- C3: lock discipline as transcribed from the operation bodies.
`removeListener` and `emit` access the shared members only between acquiring
and releasing `listenersMutex`, but `addListener` reads and writes
`lastListenerID` before the lock guard is constructed — so the claim that
every access to the mapping and the counter happens under the lock is false
for the code (a data race between concurrent `addListener` calls). -/
theorem C3_counter_not_guarded :
    lockGuarded removeListenerActions = true
    ∧ lockGuarded emitActions = true
    ∧ lockGuarded addListenerActions = false := by decide

/-- C4: for every registry state and category, `addListener` with an empty
callback throws `invalid_argument` and has no effect at all: the state (and
hence the listener count) is unchanged and no identifier is consumed. -/
theorem C4_invalid_callback_rejected {K C E : Type} [LinearOrder K]
    (s : EventEmitter K C) (k : K) :
    runOp s (Op.addListener k (none : Option C) : Op K C E) = (s, Ret.invalidArgument)
    ∧ addListener s k (none : Option C)
        = Except.error
            "EventEmitter::addListener: The callback function provided is not valid."
    ∧ (runOp s (Op.addListener k (none : Option C) : Op K C E)).1.listeners.length
        = s.listeners.length
    ∧ (runOp s (Op.addListener k (none : Option C) : Op K C E)).1.lastListenerID
        = s.lastListenerID := by
  refine ⟨runOp_add_invalid s k Option.isNone_none, rfl, ?_, ?_⟩ <;>
    rw [runOp_add_invalid s k Option.isNone_none]

/-- C5 counterexample: callback value `some 7` is the callback associated
with identifier 0 (the identifier the first `addListener` returned); after
`removeListener(0)` has returned, re-registering the same callback value
under a fresh identifier makes a subsequent `emit` invoke that callback —
so, read at the level of callback values, "no subsequent emit invokes the
callback that was associated with id" is false. -/
theorem C5_counterexample :
    traceOuts (emptyEmitter : EventEmitter Nat Nat)
        [(Op.addListener 0 (some 7) : Op Nat Nat Nat)] = [Ret.listenerId 0]
    ∧ (execTrace (emptyEmitter : EventEmitter Nat Nat)
        [(Op.addListener 0 (some 7) : Op Nat Nat Nat)]).listeners = [(0, ⟨0, some 7⟩)]
    ∧ (some 7, 0, 5) ∈ emitCalls (execTrace (emptyEmitter : EventEmitter Nat Nat)
        [Op.addListener 0 (some 7), Op.removeListener 0,
         (Op.addListener 0 (some 7) : Op Nat Nat Nat)]) 0 5 := by decide

/-- C5 (amended): once `removeListener(id)` has returned, no subsequent
`emit` dispatches through the registration `id`: every snapshot emitted
later is free of entries carrying `id`, provided no later `addListener`
call returns the same identifier again (which can only happen once the
32-bit counter wraps around). -/
theorem C5_amended_removed_id_never_dispatched {K C E : Type} [LinearOrder K]
    (s : EventEmitter K C) (i : Nat) (ops : List (Op K C E))
    (hfresh : ∀ r ∈ traceOuts (removeListener s i) ops, ¬ r = Ret.listenerId i) :
    ∀ r ∈ traceOuts (removeListener s i) ops, snapshotAvoids i r := by
  refine noId_execTrace ops (removeListener s i) i ?_ hfresh
  intro p hp
  exact of_decide_eq_true (List.mem_filter.mp hp).2

theorem C5_amended_removed_id_never_dispatched_witness :
    (∀ r ∈ traceOuts (removeListener sW 0) opsW, ¬ r = Ret.listenerId 0)
    ∧ ∀ r ∈ traceOuts (removeListener sW 0) opsW, snapshotAvoids 0 r :=
  ⟨by decide, C5_amended_removed_id_never_dispatched sW 0 opsW (by decide)⟩

/-- C6: `removeListener` is idempotent — a second call with the same
identifier changes nothing (and, like every `removeListener` call, returns
normally) — and `removeListener` with an identifier that the registry never
issued leaves the state completely unchanged. -/
theorem C6_remove_idempotent_and_unissued_noop {K C E : Type} [LinearOrder K] :
    (∀ (s : EventEmitter K C) (i : Nat),
      removeListener (removeListener s i) i = removeListener s i
      ∧ (runOp (removeListener s i) (Op.removeListener i : Op K C E)).2 = Ret.removed)
    ∧ ∀ (ops : List (Op K C E)) (i : Nat),
        i ∉ issuedIds (traceOuts (emptyEmitter : EventEmitter K C) ops) →
        removeListener (execTrace (emptyEmitter : EventEmitter K C) ops) i
          = execTrace (emptyEmitter : EventEmitter K C) ops := by
  constructor
  · intro s i
    refine ⟨?_, rfl⟩
    have hff : (s.listeners.filter (fun p => decide (¬ p.2.id = i))).filter
          (fun p => decide (¬ p.2.id = i))
        = s.listeners.filter (fun p => decide (¬ p.2.id = i)) := by
      rw [List.filter_filter]
      exact List.filter_congr (fun a _ => Bool.and_self _)
    show EventEmitter.mk ((s.listeners.filter (fun p => decide (¬ p.2.id = i))).filter
        (fun p => decide (¬ p.2.id = i))) s.lastListenerID = _
    rw [hff]
    rfl
  · intro ops i hi
    have hall : ∀ p ∈ (execTrace (emptyEmitter : EventEmitter K C) ops).listeners,
        (decide (¬ p.2.id = i)) = true := by
      intro p hp
      rcases mem_listeners_execTrace ops emptyEmitter p hp with hmem | hiss
      · simp [emptyEmitter] at hmem
      · exact decide_eq_true (fun heq => hi (heq ▸ hiss))
    show EventEmitter.mk
        ((execTrace (emptyEmitter : EventEmitter K C) ops).listeners.filter
          (fun p => decide (¬ p.2.id = i)))
        (execTrace (emptyEmitter : EventEmitter K C) ops).lastListenerID = _
    rw [List.filter_eq_self.mpr hall]

theorem C6_remove_idempotent_and_unissued_noop_witness :
    5 ∉ issuedIds (traceOuts (emptyEmitter : EventEmitter Nat Nat) opsA)
    ∧ removeListener (execTrace (emptyEmitter : EventEmitter Nat Nat) opsA) 5
        = execTrace (emptyEmitter : EventEmitter Nat Nat) opsA :=
  ⟨by decide,
   (C6_remove_idempotent_and_unissued_noop (K := Nat) (C := Nat) (E := Nat)).2
     opsA 5 (by decide)⟩

/-- C7 counterexample: in the reachable state after `2^32 + 1` successful
additions the counter has wrapped and two stored entries carry id 0, so ids
in the mapping are NOT unique there and `removeListener(0)` removes BOTH of
them: the listener count drops by two, refuting "removes at most one
entry". -/
theorem C7_counterexample :
    (execTrace (emptyEmitter : EventEmitter Nat Nat) (repAdd (UINT_MOD + 1))).listeners.length
      = (removeListener (execTrace (emptyEmitter : EventEmitter Nat Nat)
          (repAdd (UINT_MOD + 1))) 0).listeners.length + 2 := by
  have hpos := uintMod_pos
  rw [removeListener_listeners]
  rw [listeners_repAdd_empty, List.length_map, List.length_range,
    ← List.countP_eq_length_filter, List.countP_map]
  have hc1 : List.countP ((fun p : Nat × Listener Nat => decide (¬ p.2.id = 0)) ∘
        (fun i => ((0 : Nat), (⟨i % UINT_MOD, some 0⟩ : Listener Nat))))
        (List.range (UINT_MOD + 1))
      = List.countP (fun i => decide (¬ i % UINT_MOD = 0)) (List.range (UINT_MOD + 1)) :=
    List.countP_congr (fun x _ => by simp [Function.comp])
  rw [hc1, countP_range_not_mod UINT_MOD uintMod_pos]
  omega

/-- C7 (amended): in every state reachable with at most `2^32` successful
registrations the stored ids are pairwise distinct, so `removeListener`
removes at most one entry (the count drops by at most one) and every entry
whose id differs from the argument is left in place. -/
theorem C7_amended_remove_at_most_one {K C E : Type} [LinearOrder K]
    (ops : List (Op K C E)) (i : Nat) (h : succAdds ops ≤ UINT_MOD) :
    (execTrace (emptyEmitter : EventEmitter K C) ops).listeners.length
      ≤ (removeListener (execTrace (emptyEmitter : EventEmitter K C) ops) i).listeners.length
        + 1
    ∧ ∀ p ∈ (execTrace (emptyEmitter : EventEmitter K C) ops).listeners, ¬ p.2.id = i →
        p ∈ (removeListener (execTrace (emptyEmitter : EventEmitter K C) ops) i).listeners := by
  have hnodup := ((invAt_execTrace_empty (K := K) (C := C) ops).2 h).2
  constructor
  · show (execTrace (emptyEmitter : EventEmitter K C) ops).listeners.length
      ≤ ((execTrace (emptyEmitter : EventEmitter K C) ops).listeners.filter
          (fun p => decide (¬ p.2.id = i))).length + 1
    rw [← List.countP_eq_length_filter]
    have hmatch : List.countP (fun p : K × Listener C => decide (p.2.id = i))
        (execTrace (emptyEmitter : EventEmitter K C) ops).listeners ≤ 1 := by
      have h1 : List.countP (fun p : K × Listener C => decide (p.2.id = i))
          (execTrace (emptyEmitter : EventEmitter K C) ops).listeners
          = List.count i ((execTrace (emptyEmitter : EventEmitter K C) ops).listeners.map
              (fun p => p.2.id)) := by
        rw [List.count_eq_countP, List.countP_map]
        exact List.countP_congr (fun x _ => by simp [Function.comp])
      rw [h1]
      exact List.nodup_iff_count_le_one.mp hnodup i
    have hsplit : (execTrace (emptyEmitter : EventEmitter K C) ops).listeners.length
        = List.countP (fun p : K × Listener C => decide (¬ p.2.id = i))
            (execTrace (emptyEmitter : EventEmitter K C) ops).listeners
          + List.countP (fun p : K × Listener C => decide (p.2.id = i))
            (execTrace (emptyEmitter : EventEmitter K C) ops).listeners := by
      have h2 : List.countP
          (fun a : K × Listener C => (decide (¬ (decide (¬ a.2.id = i)) = true) : Bool))
          (execTrace (emptyEmitter : EventEmitter K C) ops).listeners
          = List.countP (fun p : K × Listener C => decide (p.2.id = i))
            (execTrace (emptyEmitter : EventEmitter K C) ops).listeners :=
        List.countP_congr (fun x _ => by simp)
      rw [← h2]
      exact List.length_eq_countP_add_countP
        (p := fun p : K × Listener C => decide (¬ p.2.id = i)) _
    omega
  · intro p hp hne
    exact List.mem_filter.mpr ⟨hp, decide_eq_true hne⟩

theorem C7_amended_remove_at_most_one_witness :
    succAdds opsA ≤ UINT_MOD
    ∧ ((execTrace (emptyEmitter : EventEmitter Nat Nat) opsA).listeners.length
        ≤ (removeListener (execTrace (emptyEmitter : EventEmitter Nat Nat) opsA)
            0).listeners.length + 1
      ∧ ∀ p ∈ (execTrace (emptyEmitter : EventEmitter Nat Nat) opsA).listeners,
          ¬ p.2.id = 0 →
          p ∈ (removeListener (execTrace (emptyEmitter : EventEmitter Nat Nat) opsA)
              0).listeners) :=
  ⟨by decide, C7_amended_remove_at_most_one opsA 0 (by decide)⟩

/-- C8: `emit` is const — the registry state after an emission is the state
before it — every invocation passes exactly the pair `(category, event)` to
its callback, and the registry never inspects the payload: transporting the
payload along any function commutes with `emit`. -/
theorem C8_emit_leaves_state_and_payload_untouched {K C E F : Type} [LinearOrder K]
    (s : EventEmitter K C) (c : K) (e : E) (f : E → F) :
    (runOp s (Op.emit c e)).1 = s
    ∧ (emitCalls s c e).map (fun t => t.2)
        = List.replicate (emitSnapshot s c).length (c, e)
    ∧ (emitCalls s c e).map (fun t => (t.1, t.2.1, f t.2.2)) = emitCalls s c (f e) := by
  refine ⟨rfl, ?_, ?_⟩
  · rw [emitCalls, List.map_map]
    exact List.map_const' _ _
  · rw [emitCalls, emitCalls, List.map_map]
    rfl

/-- C9 (implicit): dispatch order within a category is registration order —
on every reachable registry, the invocation sequence of `emit(c, e)` equals
the per-category registration list of the trace (new listeners appended at
the end of the equal-key run, removals deleting their entries), mapped to
calls front to back. -/
theorem C9_dispatch_in_registration_order {K C E : Type} [LinearOrder K]
    (ops : List (Op K C E)) (c : K) (e : E) :
    emitCalls (execTrace (emptyEmitter : EventEmitter K C) ops) c e
      = (specRegistered c ops).map (fun v => (v.callback, c, e)) := by
  have hsorted : SortedKeys (execTrace (emptyEmitter : EventEmitter K C) ops).listeners :=
    sortedKeys_execTrace ops emptyEmitter (by simp [emptyEmitter, SortedKeys])
  rw [emitCalls, emitSnapshot, equalRange_eq_filter hsorted]
  rw [show (fun p : K × Listener C => (p.2.callback, c, e))
      = (fun v : Listener C => (v.callback, c, e)) ∘ (fun p => p.2) from rfl,
    ← List.map_map,
    filter_execTrace_spec ops emptyEmitter c (by simp [emptyEmitter, SortedKeys])]
  rfl

/-- C10 counterexample: after exactly `2^32` successful additions the
counter has wrapped back to 0 while `2^32` entries are stored, so the
invariant "the id of every stored entry is strictly less than the counter"
fails on this reachable state. -/
theorem C10_counterexample :
    ¬ (∀ p ∈ (execTrace (emptyEmitter : EventEmitter Nat Nat) (repAdd UINT_MOD)).listeners,
        p.2.id < (execTrace (emptyEmitter : EventEmitter Nat Nat)
          (repAdd UINT_MOD)).lastListenerID) := by
  intro hall
  have hcnt : (execTrace (emptyEmitter : EventEmitter Nat Nat)
      (repAdd UINT_MOD)).lastListenerID = 0 := by
    rw [lastListenerID_execTrace (repAdd UINT_MOD) emptyEmitter uintMod_pos,
      succAdds_repAdd]
    rw [show (emptyEmitter : EventEmitter Nat Nat).lastListenerID = 0 from rfl,
      Nat.zero_add, Nat.mod_self]
  have hmem : ((0 : Nat), (⟨0, some 0⟩ : Listener Nat))
      ∈ (execTrace (emptyEmitter : EventEmitter Nat Nat) (repAdd UINT_MOD)).listeners := by
    rw [listeners_repAdd_empty]
    exact List.mem_map.mpr ⟨0, List.mem_range.mpr uintMod_pos, by simp⟩
  have hlt := hall _ hmem
  rw [hcnt] at hlt
  exact Nat.not_lt_zero _ hlt

/-- C10 (amended): in every state reachable with fewer than `2^32`
successful additions, the id of every stored entry is strictly less than the
counter, and consequently the stored ids are pairwise distinct. -/
theorem C10_amended_ids_below_counter {K C E : Type} [LinearOrder K]
    (ops : List (Op K C E)) (h : succAdds ops < UINT_MOD) :
    (∀ p ∈ (execTrace (emptyEmitter : EventEmitter K C) ops).listeners,
        p.2.id < (execTrace (emptyEmitter : EventEmitter K C) ops).lastListenerID)
    ∧ ((execTrace (emptyEmitter : EventEmitter K C) ops).listeners.map
        (fun p => p.2.id)).Nodup := by
  have hinv := invAt_execTrace_empty (K := K) (C := C) ops
  have hcnt : (execTrace (emptyEmitter : EventEmitter K C) ops).lastListenerID
      = succAdds ops := by
    rw [hinv.1, Nat.mod_eq_of_lt h]
  have hbody := hinv.2 (le_of_lt h)
  exact ⟨fun p hp => hcnt ▸ hbody.1 p hp, hbody.2⟩

theorem C10_amended_ids_below_counter_witness :
    succAdds opsA < UINT_MOD
    ∧ ((∀ p ∈ (execTrace (emptyEmitter : EventEmitter Nat Nat) opsA).listeners,
        p.2.id < (execTrace (emptyEmitter : EventEmitter Nat Nat) opsA).lastListenerID)
      ∧ ((execTrace (emptyEmitter : EventEmitter Nat Nat) opsA).listeners.map
          (fun p => p.2.id)).Nodup) :=
  ⟨by decide, C10_amended_ids_below_counter opsA (by decide)⟩

end Rctrl
